import Mathlib

/-!
# Verification of the project-member-invite creation route

Shallow embedding of `src/routes/projectMemberInvites/create.js` of
`tc-project-service`: the email equivalence helper `compareEmail`, the
invite-building helper `buildCreateInvitePromises`, and the request handler
(`module.exports` third element), together with proofs of the spec claims.

Conventions of the embedding:
* JS numbers used as user ids are modelled as `Int`.
* `undefined`/`null` string fields are modelled as `Option String`;
  lodash `_.toLower` maps `undefined` to `""`, modelled by `optStr`.
* Collaborator results (`util.lookupUserEmails`, `util.getUserRoles`,
  `models.ProjectMemberInvite.getPendingInvitesForProject`, configuration and
  the caller's privilege checks `util.hasRoles(req, ...)`) are inputs of the
  model; persistence is assumed to succeed (its failure aborts the whole call
  and is outside the claims).
* A JS exception thrown inside the email-processing promise chain is modelled
  with `Except`; the `catch` handler of `buildCreateInvitePromises` reads
  `error.statusText`, which is `undefined` (`none`) for a `RegExp` syntax
  error.
-/

set_option autoImplicit false

namespace InviteCreate

/-- ASCII-faithful model of lodash `_.toLower` / `String.prototype.toLowerCase`
applied to the email strings of this route. -/
def jsToLower (s : String) : String := ⟨s.data.map Char.toLower⟩

/-- Character class `[\w.+-]` of the gmail-detection regex in `compareEmail`
(`\w` = ASCII letters, digits and underscore). -/
def isLocalChar (c : Char) : Bool :=
  c.isAlpha || c.isDigit || c = '_' || c = '.' || c = '+' || c = '-'

/--
Model of `/(^[\w.+-]+)(@gmail\.com|@googlemail\.com)$/.exec(s)`.

Both domain alternatives start with `'@'` and `[\w.+-]` excludes `'@'`, so the
regex matches exactly when `s = loc ++ dom` where `dom` is one of the two
domain literals and `loc` is a nonempty run of local characters; in that case
`loc` is everything before the unique `'@'` of `s`. We therefore split `s` at
the first `'@'` and check both parts.
-/
def gmailExec (s : List Char) : Option (List Char × List Char) :=
  let loc := s.takeWhile (fun c => c ≠ '@')
  let dom := s.dropWhile (fun c => c ≠ '@')
  if (dom = "@gmail.com".data ∨ dom = "@googlemail.com".data) ∧
      loc ≠ [] ∧ loc.all isLocalChar then
    some (loc, dom)
  else
    none

/-- JS `String.prototype.replace('.', '')` with a *string* pattern removes only
the first occurrence of the dot. -/
def removeFirstDot : List Char → List Char
  | [] => []
  | c :: cs => if c = '.' then cs else c :: removeFirstDot cs

/-- Tokens of the regex built by `compareEmail`:
`address.split('').join('\\.?')` followed by the escaped domain.  A remaining
(second or later) dot of the address is an *unescaped* `.` in the pattern,
i.e. a wildcard; `\.?` is an optional literal dot; all other characters and
the escaped domain are literals. -/
inductive RToken where
  | lit (c : Char)
  | anyChar
  | optDot
  deriving DecidableEq, Repr

/-- A character of the address contributes a wildcard when it is a dot and a
literal otherwise. -/
def tokChar (c : Char) : RToken :=
  if c = '.' then RToken.anyChar else RToken.lit c

/-- `address.split('').join('\\.?')`: the address characters interleaved with
optional-dot tokens. -/
def interleave : List Char → List RToken
  | [] => []
  | [c] => [tokChar c]
  | c :: cs => tokChar c :: RToken.optDot :: interleave cs

/-- Backtracking matcher for the token language, anchored at the head of
`ds`; returns `true` iff some prefix of `ds` matches the whole pattern.
Result agrees with the JS regex engine (which tries the dot branch of `\.?`
first; the disjunction makes the order irrelevant for the boolean result). -/
def matchToks : List RToken → List Char → Bool
  | [], _ => true
  | RToken.optDot :: ts, ds =>
      matchToks ts ds ||
        (match ds with
         | d :: ds2 => d == '.' && matchToks ts ds2
         | [] => false)
  | RToken.lit c :: ts, ds =>
      match ds with
      | d :: ds2 => c == d && matchToks ts ds2
      | [] => false
  | RToken.anyChar :: ts, ds =>
      match ds with
      | _ :: ds2 => matchToks ts ds2
      | [] => false

/-- The constructed `RegExp` is unanchored, and `regex.test` therefore searches
for a match starting at any position. -/
def searchToks (ts : List RToken) (ds : List Char) : Bool :=
  matchToks ts ds ||
    (match ds with
     | [] => false
     | _ :: ds2 => searchToks ts ds2)

/--
Model of `compareEmail(email1, email2, options)` with
`options.UNIQUE_GMAIL_VALIDATION = flag` (create.js lines 40-53).

With the flag set and `email1` matching the gmail/googlemail pattern, the
first dot of the local part is removed, the remaining characters are joined
with `\.?` and suffixed with the escaped domain, and the resulting regex is
tested against the lowercased `email2`.  A `'+'` surviving in the address
yields the pattern fragment `\.?+` (or a leading `+`), which is a `RegExp`
syntax error ("nothing to repeat"): modelled as `Except.error ()`.  In every
other case the comparison is lowercase string equality.
-/
def compareEmailE (email1 email2 : String) (uniqueGmail : Bool) :
    Except Unit Bool :=
  if uniqueGmail then
    match gmailExec (jsToLower email1).data with
    | some (loc, dom) =>
        let address := removeFirstDot loc
        if address.any (fun ch => ch == '+') then
          Except.error ()
        else
          Except.ok (searchToks (interleave address ++ dom.map RToken.lit)
            (jsToLower email2).data)
    | none => Except.ok (jsToLower email1 == jsToLower email2)
  else
    Except.ok (jsToLower email1 == jsToLower email2)

deriving instance DecidableEq for Except

/-! ## Data model -/

/-- `INVITE_STATUS` values used by this route. -/
inductive InviteStatus where
  | PENDING
  | REQUESTED
  deriving DecidableEq, Repr

/-- Constants imported from `../../constants` (the file is not part of the
sources under verification); the handler only ever compares against them, so
they are parameters of the model. -/
structure Consts where
  CUSTOMER : String
  COPILOT : String
  PROJECT_MEMBER_MANAGER_ROLES : List String
  MANAGER_ROLES : List String
  deriving Repr

/-- `req.body.param` after Joi validation: optional userId list, optional
email list, and the requested project-member role. -/
structure Invite where
  userIds : Option (List Int)
  emails : Option (List String)
  role : String
  deriving DecidableEq, Repr

/-- The calling user: id plus the two privilege checks the handler performs
(`util.hasRoles(req, MANAGER_ROLES)` and
`util.hasRoles(req, [USER_ROLE.CONNECT_ADMIN, USER_ROLE.COPILOT_MANAGER])`). -/
structure Caller where
  userId : Int
  hasManagerRoles : Bool
  isAdminOrCopilotManager : Bool
  deriving DecidableEq, Repr

/-- A pending invitation already stored for the project, as read by
`getPendingInvitesForProject`; only the fields the handler inspects. -/
structure ExistingInvite where
  userId : Option Int := none
  email : Option String := none
  deriving DecidableEq, Repr

/-- One entry of the `util.lookupUserEmails` response (the handler converts
the string id with `parseInt`, so the id is modelled numeric). -/
structure LookedUpUser where
  id : Int
  email : Option String := none
  deriving DecidableEq, Repr

/-- An itemized per-candidate failure pushed on the `failed` list. -/
structure FailureEntry where
  userId : Option Int := none
  email : Option String := none
  message : Option String := none
  deriving DecidableEq, Repr

/-- The template `data` object built by the handler before creating invites. -/
structure InviteData where
  projectId : Int
  role : String
  status : InviteStatus
  createdBy : Int
  updatedBy : Int
  deriving DecidableEq, Repr

/-- A to-be-created invitation record (`dataNew` passed to
`models.ProjectMemberInvite.create`). -/
structure InviteRecord where
  projectId : Int
  role : String
  status : InviteStatus
  createdBy : Int
  updatedBy : Int
  userId : Option Int := none
  email : Option String := none
  deriving DecidableEq, Repr

/-- External state and collaborator results consumed by one invocation. -/
structure Env where
  members : List Int
  invites : List ExistingInvite
  roleLookup : Int → List String
  emailLookup : Except (Option String) (List LookedUpUser)
  uniqueGmailValidation : Bool

/-- Outcome of the handler visible to the caller: a fatal `next(err)` with an
HTTP status, a 201 response carrying only the success list, or a 403 response
carrying the success list together with the itemized failures. -/
inductive HandlerResult where
  | fatal (status : Int) (message : String)
  | success (records : List InviteRecord)
  | mixed (records : List InviteRecord) (failed : List FailureEntry)
  deriving DecidableEq, Repr

/-- HTTP status of a `HandlerResult` (create.js lines 289-296 and the
`err.status` assignments). -/
def resultStatus : HandlerResult → Int
  | HandlerResult.fatal st _ => st
  | HandlerResult.success _ => 201
  | HandlerResult.mixed _ _ => 403

/-! ## The invite-building helper -/

/-- Modelled from the spec: `util.hasIntersection` (util.js is not under the
verified sources) — §4.5: "a candidate is rejected when its fetched role set
has no intersection with the manager role set". -/
def hasIntersection (a b : List String) : Bool :=
  a.any (fun x => b.contains x)

/-- lodash `_.toLower` maps `undefined`/`null` to the empty string. -/
def optStr : Option String → String
  | some s => s
  | none => ""

/-- `_.some` of `compareEmail(i.email, email, ...)` over the existing invites,
with the configured `UNIQUE_GMAIL_VALIDATION` flag
(create.js lines 111-113) and exception propagation: `_.some` stops at the
first invite whose comparison returns true; a comparison that throws
propagates (the thrown `SyntaxError` has no `statusText`, hence `none`). -/
def someInviteEmailMatch (cfg : Bool) (email : String) :
    List ExistingInvite → Except (Option String) Bool
  | [] => Except.ok false
  | i :: is =>
    match compareEmailE (optStr i.email) email cfg with
    | Except.error _ => Except.error none
    | Except.ok true => Except.ok true
    | Except.ok false => someInviteEmailMatch cfg email is

/-- `_.remove(nonExistentUserEmails, email => _.some(invites, ...))`
(create.js lines 111-113): keeps the emails matching no existing invite,
propagating a thrown comparison error. -/
def filterNotMatchedE (cfg : Bool) (invites : List ExistingInvite) :
    List String → Except (Option String) (List String)
  | [] => Except.ok []
  | e :: es =>
    match someInviteEmailMatch cfg e invites with
    | Except.error msg => Except.error msg
    | Except.ok b =>
      match filterNotMatchedE cfg invites es with
      | Except.error msg => Except.error msg
      | Except.ok rest => Except.ok (if b then rest else e :: rest)

/-- `dataNew` for a user-id candidate (create.js lines 72-76). -/
def mkUserIdRecord (data : InviteData) (u : Int) : InviteRecord :=
  { projectId := data.projectId, role := data.role, status := data.status,
    createdBy := data.createdBy, updatedBy := data.updatedBy,
    userId := some u, email := none }

/-- `dataNew` for an email candidate matching a registered account
(create.js lines 101-108): userId plus the lower-cased account email
(`user.email ? user.email.toLowerCase() : user.email`). -/
def mkRegisteredRecord (data : InviteData) (u : LookedUpUser) : InviteRecord :=
  { projectId := data.projectId, role := data.role, status := data.status,
    createdBy := data.createdBy, updatedBy := data.updatedBy,
    userId := some u.id, email := u.email.map jsToLower }

/-- `dataNew` for an unregistered email candidate (create.js lines 114-120):
lower-cased email only. -/
def mkEmailRecord (data : InviteData) (e : String) : InviteRecord :=
  { projectId := data.projectId, role := data.role, status := data.status,
    createdBy := data.createdBy, updatedBy := data.updatedBy,
    userId := none, email := some (jsToLower e) }

/--
Model of `buildCreateInvitePromises(req, invite, invites, data, failed)`
(create.js lines 66-130).  The returned pair is the list of records handed to
`models.ProjectMemberInvite.create` (in push order) and the final `failed`
list.

* User-id candidates already invited (matched by `i.userId === u`) are removed;
  the rest become records.
* With emails present, `util.lookupUserEmails` resolves registered accounts;
  candidates are partitioned by the non-aliased comparison
  (`UNIQUE_GMAIL_VALIDATION: false`); registered candidates already invited
  are removed *by userId*; unregistered candidates already invited are removed
  by the configured aliased comparison.  A failure of the lookup — or an
  exception thrown by the aliased comparison — reaches the `catch`, which
  turns every candidate email into a failure entry carrying
  `error.statusText` and returns the promises pushed so far.
-/
def buildCreateInvitePromises (invite : Invite) (invites : List ExistingInvite)
    (data : InviteData) (failed : List FailureEntry)
    (emailLookup : Except (Option String) (List LookedUpUser)) (cfg : Bool) :
    List InviteRecord × List FailureEntry :=
  let records1 :=
    match invite.userIds with
    | some us =>
        (us.filter (fun u => ! invites.any (fun i => i.userId == some u))).map
          (mkUserIdRecord data)
    | none => []
  match invite.emails with
  | none => (records1, failed)
  | some es =>
    match emailLookup with
    | Except.error msg =>
        (records1, failed ++ es.map (fun e =>
          { email := some e, message := msg }))
    | Except.ok existentUsers =>
        let nonExistentUserEmails := es.filter (fun e =>
          ! existentUsers.any (fun u =>
            jsToLower (optStr u.email) == jsToLower e))
        let existent2 := existentUsers.filter (fun u =>
          ! invites.any (fun i => i.userId == some u.id))
        let records2 := existent2.map (mkRegisteredRecord data)
        match filterNotMatchedE cfg invites nonExistentUserEmails with
        | Except.error msg =>
            (records1 ++ records2, failed ++ es.map (fun e =>
              { email := some e, message := msg }))
        | Except.ok nonEx2 =>
            (records1 ++ records2 ++ nonEx2.map (mkEmailRecord data), failed)

/-! ## The request handler -/

/--
Model of the handler body (create.js lines 187-288) up to and including
record creation: either a fatal error (`next(err)` with `err.status` and
message) or the pair of created records and accumulated failure entries.

Stages, in source order: the 400 check for missing candidate sets; the 403
request-level role gate; removal of user ids already in the team; the
email-role restriction (failures plus clearing of the email set); the
per-candidate manager check over the concurrently fetched role sets
(`_.zip(invite.userIds, rolesList)` pairs each surviving user id with its own
role set, modelled by `env.roleLookup`); the status rule for the `data`
template; then `buildCreateInvitePromises`.  Role lookups are modelled as
successful — a failed lookup rejects the whole `Promise.all` and aborts the
request before any record is created, which no claim exercises.
-/
def handlerCore (c : Consts) (caller : Caller) (invite : Invite)
    (projectId : Int) (env : Env) :
    Except (Int × String) (List InviteRecord × List FailureEntry) :=
  if invite.userIds = none ∧ invite.emails = none then
    Except.error (400, "Either userIds or emails are required")
  else if ¬ caller.hasManagerRoles = true ∧ invite.role ≠ c.CUSTOMER then
    Except.error (403, "You are not allowed to invite user as " ++ invite.role)
  else
    let userIds1 := invite.userIds.map
      (List.filter (fun u => ! env.members.contains u))
    let emailStage :=
      match invite.emails with
      | some es =>
        if invite.role ≠ c.CUSTOMER then
          ((none : Option (List String)), es.map (fun e =>
            ({ email := some e,
               message := some ("Emails can only be used for " ++ c.CUSTOMER) } :
              FailureEntry)))
        else (some es, [])
      | none => (none, [])
    let managerStage :=
      match userIds1 with
      | some us =>
        if c.PROJECT_MEMBER_MANAGER_ROLES.contains invite.role then
          let forbid := us.filter (fun u =>
            ! hasIntersection c.MANAGER_ROLES (env.roleLookup u))
          (some (us.filter (fun u => ! forbid.contains u)),
           forbid.map (fun u =>
            ({ userId := some u,
               message := some "cannot be added with a Manager role to the project" } :
              FailureEntry)))
        else (some us, [])
      | none => (none, [])
    let status :=
      if invite.role ≠ c.COPILOT ∨ caller.isAdminOrCopilotManager = true then
        InviteStatus.PENDING
      else
        InviteStatus.REQUESTED
    let data : InviteData :=
      { projectId := projectId, role := invite.role, status := status,
        createdBy := caller.userId, updatedBy := caller.userId }
    Except.ok (buildCreateInvitePromises
      { userIds := managerStage.1, emails := emailStage.1, role := invite.role }
      env.invites data (emailStage.2 ++ managerStage.2) env.emailLookup
      env.uniqueGmailValidation)

/-- Final response assembly (create.js lines 289-296): any accumulated failure
entry turns the response into a 403 carrying both lists; otherwise a 201
carrying the success list only. -/
def respond (r : List InviteRecord × List FailureEntry) : HandlerResult :=
  if r.2.isEmpty then HandlerResult.success r.1 else HandlerResult.mixed r.1 r.2

/-- The whole handler: `handlerCore` followed by response assembly. -/
def handler (c : Consts) (caller : Caller) (invite : Invite)
    (projectId : Int) (env : Env) : HandlerResult :=
  match handlerCore c caller invite projectId env with
  | Except.error (st, msg) => HandlerResult.fatal st msg
  | Except.ok r => respond r

/-! ## Concrete instances used by witnesses and counterexamples -/

/-- The values of the relevant constants in the repository's `constants.js`:
`PROJECT_MEMBER_ROLE.CUSTOMER`, `PROJECT_MEMBER_ROLE.COPILOT`, the
project-member manager-tier roles, and the Topcoder manager user roles. -/
def cConsts : Consts :=
  { CUSTOMER := "customer", COPILOT := "copilot",
    PROJECT_MEMBER_MANAGER_ROLES := ["manager"],
    MANAGER_ROLES := ["Connect Manager"] }

/-- An empty project: no members, no pending invites, every role lookup
returns no roles, the email lookup returns no registered accounts. -/
def emptyEnv : Env :=
  { members := [], invites := [], roleLookup := fun _ => [],
    emailLookup := Except.ok [], uniqueGmailValidation := false }

/-! ## Claims -/

/--
**C10** — `compareEmail` with alias-canonicalization enabled is not symmetric:
the provider-alias rule fires only when the *first* argument matches the
gmail/googlemail pattern, and the constructed regex is unanchored.
`ab@gmail.com` vs `ab@gmail.com.br`: the first direction builds the pattern
from `ab@gmail.com` and finds it as a substring of `ab@gmail.com.br`; the
second direction finds that `ab@gmail.com.br` does not match the provider
pattern and falls back to case-insensitive equality, which fails.
-/
theorem c10_compareEmail_asymmetric :
    compareEmailE "ab@gmail.com" "ab@gmail.com.br" true = Except.ok true ∧
    compareEmailE "ab@gmail.com.br" "ab@gmail.com" true = Except.ok false :=
  ⟨rfl, rfl⟩

/--
**C2 counterexample** — the claim states that any two addresses differing only
by dot placement in a recognized webmail local part compare equal under the
flag.  `a.b.c@gmail.com` and `abc@gmail.com` differ only by dot placement
(stripping dots from both local parts yields the same string, first conjunct),
yet `compareEmail` returns `false` (second conjunct): JS
`String.replace` with a string pattern removes only the *first* dot, so the
second remaining dot becomes a mandatory wildcard character that
`abc@gmail.com` has no character to satisfy.
-/
theorem c2_counterexample :
    ("a.b.c@gmail.com".data.filter (fun ch => ch != '.')) =
      ("abc@gmail.com".data.filter (fun ch => ch != '.')) ∧
    compareEmailE "a.b.c@gmail.com" "abc@gmail.com" true = Except.ok false :=
  ⟨by decide, rfl⟩

/--
**C1 counterexample** — the claim states that no (projectId, userId) pair ever
yields two InviteRecords in one invocation.  A request listing the same
candidate userId twice passes every dedup stage (the removals compare against
members and existing invites, never against the request itself) and creates
two identical records for the pair (42, 5).
-/
theorem c1_counterexample :
    handler cConsts ⟨1, false, false⟩ ⟨some [5, 5], none, "customer"⟩ 42 emptyEnv =
      HandlerResult.success
        [{ projectId := 42, role := "customer", status := InviteStatus.PENDING,
           createdBy := 1, updatedBy := 1, userId := some 5, email := none },
         { projectId := 42, role := "customer", status := InviteStatus.PENDING,
           createdBy := 1, updatedBy := 1, userId := some 5, email := none }] := by
  decide

/--
**C3** — request-level authorization gate: a request (with at least one
candidate set, as the data model requires of an InviteRequest) whose role is
not the customer role and whose caller lacks the manager privilege fails with
the 403 ForbiddenError; the `fatal` result carries no success list and is
produced before any record creation or side effect.
-/
theorem c3_request_gate (c : Consts) (caller : Caller) (invite : Invite)
    (projectId : Int) (env : Env)
    (hsome : invite.userIds ≠ none ∨ invite.emails ≠ none)
    (hmgr : caller.hasManagerRoles = false)
    (hrole : invite.role ≠ c.CUSTOMER) :
    handler c caller invite projectId env =
      HandlerResult.fatal 403
        ("You are not allowed to invite user as " ++ invite.role) := by
  have h1 : ¬ (invite.userIds = none ∧ invite.emails = none) := by
    rcases hsome with h | h
    · exact fun hc => h hc.1
    · exact fun hc => h hc.2
  have h2 : ¬ caller.hasManagerRoles = true ∧ invite.role ≠ c.CUSTOMER :=
    ⟨by simp [hmgr], hrole⟩
  unfold handler handlerCore
  rw [if_neg h1, if_pos h2]

/-- Witness for C3 at a concrete input. -/
theorem c3_request_gate_witness :
    ((⟨some [5], none, "manager"⟩ : Invite).userIds ≠ none ∨
      (⟨some [5], none, "manager"⟩ : Invite).emails ≠ none) ∧
    (⟨1, false, false⟩ : Caller).hasManagerRoles = false ∧
    (⟨some [5], none, "manager"⟩ : Invite).role ≠ cConsts.CUSTOMER ∧
    handler cConsts ⟨1, false, false⟩ ⟨some [5], none, "manager"⟩ 42 emptyEnv =
      HandlerResult.fatal 403 "You are not allowed to invite user as manager" :=
  ⟨Or.inl (by decide), rfl, by decide,
    c3_request_gate cConsts ⟨1, false, false⟩ ⟨some [5], none, "manager"⟩ 42
      emptyEnv (Or.inl (by decide)) rfl (by decide)⟩

/--
**C4 counterexample** — two deviations from the claim.  First conjunct: with a
caller lacking manager privilege the very same request dies at the request
gate with a 403 error and *no* per-email FailureEntry, although the claim
quantifies over every request with a non-empty email set and a non-customer
role.  Second and third conjuncts: when the stage is reached, the message is
`Emails can only be used for customer` — capital `E` — not the claimed
`emails can only be used for customer`.
-/
theorem c4_counterexample :
    handler cConsts ⟨1, false, false⟩ ⟨none, some ["a@x.com"], "manager"⟩ 42
        emptyEnv =
      HandlerResult.fatal 403 "You are not allowed to invite user as manager" ∧
    handler cConsts ⟨1, true, false⟩ ⟨none, some ["a@x.com"], "manager"⟩ 42
        emptyEnv =
      HandlerResult.mixed []
        [{ userId := none, email := some "a@x.com",
           message := some "Emails can only be used for customer" }] ∧
    ("Emails can only be used for customer" : String) ≠
      "emails can only be used for customer" := by
  refine ⟨by decide, by decide, by decide⟩

/--
**C5 counterexample** — the *behaviour* the claim describes does happen
(candidate 11 with a manager role is created, candidate 22 without one fails
and is removed), but the failure message is
`cannot be added with a Manager role to the project` — capital `M` — while
the claim asserts the message `cannot be added with a manager role to the
project` (last conjunct: the two strings differ).
-/
theorem c5_counterexample :
    handler cConsts ⟨1, true, false⟩ ⟨some [11, 22], none, "manager"⟩ 42
        ⟨[], [], fun u => if u = 11 then ["Connect Manager"] else [],
          Except.ok [], false⟩ =
      HandlerResult.mixed
        [{ projectId := 42, role := "manager", status := InviteStatus.PENDING,
           createdBy := 1, updatedBy := 1, userId := some 11, email := none }]
        [{ userId := some 22, email := none,
           message := some "cannot be added with a Manager role to the project" }] ∧
    ("cannot be added with a Manager role to the project" : String) ≠
      "cannot be added with a manager role to the project" := by
  refine ⟨by decide, by decide⟩

/--
**C9** — response aggregation: whenever the processing stages produce records
`recs` and failures `fs`, the response is the 403 `mixed` result carrying both
lists when any failure accumulated, and the 201 `success` result carrying the
success list only when none did.
-/
theorem c9_response_aggregation (c : Consts) (caller : Caller) (invite : Invite)
    (projectId : Int) (env : Env) (recs : List InviteRecord)
    (fs : List FailureEntry)
    (h : handlerCore c caller invite projectId env = Except.ok (recs, fs)) :
    (fs ≠ [] →
      handler c caller invite projectId env = HandlerResult.mixed recs fs) ∧
    (fs = [] →
      handler c caller invite projectId env = HandlerResult.success recs) ∧
    resultStatus (handler c caller invite projectId env) =
      (if fs = [] then 201 else 403) := by
  have hh : handler c caller invite projectId env = respond (recs, fs) := by
    unfold handler
    rw [h]
  rw [hh]
  rcases fs with _ | ⟨f, fs2⟩
  · simp [respond, resultStatus]
  · simp [respond, resultStatus]

/-- The failure entry produced for `b@y.com` by the email-role restriction. -/
def roleFailEntry : FailureEntry :=
  ⟨none, some "b@y.com", some "Emails can only be used for customer"⟩

/-- Witness for C9 at a concrete input with one accumulated failure. -/
theorem c9_response_aggregation_witness :
    handlerCore cConsts ⟨1, true, false⟩ ⟨none, some ["b@y.com"], "manager"⟩ 42
        emptyEnv =
      Except.ok ([], [roleFailEntry]) ∧
    (([roleFailEntry] : List FailureEntry) ≠ [] →
      handler cConsts ⟨1, true, false⟩ ⟨none, some ["b@y.com"], "manager"⟩ 42
          emptyEnv =
        HandlerResult.mixed [] [roleFailEntry]) ∧
    (([roleFailEntry] : List FailureEntry) = [] →
      handler cConsts ⟨1, true, false⟩ ⟨none, some ["b@y.com"], "manager"⟩ 42
          emptyEnv =
        HandlerResult.success []) ∧
    resultStatus (handler cConsts ⟨1, true, false⟩
        ⟨none, some ["b@y.com"], "manager"⟩ 42 emptyEnv) =
      (if ([roleFailEntry] : List FailureEntry) = [] then 201 else 403) :=
  ⟨by decide,
    c9_response_aggregation cConsts ⟨1, true, false⟩
      ⟨none, some ["b@y.com"], "manager"⟩ 42 emptyEnv [] [roleFailEntry]
      (by decide)⟩

/-- Every record pushed by `buildCreateInvitePromises` carries the status of
the shared `data` template — all three record builders copy it. -/
theorem build_records_status (ouids : Option (List Int))
    (oems : Option (List String)) (role : String)
    (invites : List ExistingInvite) (data : InviteData)
    (failed : List FailureEntry)
    (lookup : Except (Option String) (List LookedUpUser)) (cfg : Bool) :
    ∀ r ∈ (buildCreateInvitePromises ⟨ouids, oems, role⟩ invites data failed
        lookup cfg).1,
      r.status = data.status := by
  intro r hr
  have hrec1 : ∀ us : List Int,
      r ∈ (us.filter (fun u =>
          ! invites.any (fun i => i.userId == some u))).map
        (mkUserIdRecord data) → r.status = data.status := by
    intro us hx
    rcases List.mem_map.mp hx with ⟨u, _, rfl⟩
    rfl
  have hrecids :
      r ∈ (match ouids with
        | some us => (us.filter (fun u =>
            ! invites.any (fun i => i.userId == some u))).map
          (mkUserIdRecord data)
        | none => ([] : List InviteRecord)) → r.status = data.status := by
    intro hx
    rcases ouids with _ | us
    · simp at hx
    · exact hrec1 us hx
  unfold buildCreateInvitePromises at hr
  dsimp only at hr
  rcases oems with _ | es
  · dsimp only at hr
    exact hrecids hr
  · dsimp only at hr
    rcases lookup with msg | users
    · dsimp only at hr
      exact hrecids hr
    · dsimp only at hr
      rcases hfm : filterNotMatchedE cfg invites
          (es.filter (fun e => ! users.any (fun u =>
            jsToLower (optStr u.email) == jsToLower e))) with msg | nonEx2 <;>
        rw [hfm] at hr <;> dsimp only at hr
      · rw [List.mem_append] at hr
        rcases hr with hr | hr
        · exact hrecids hr
        · rcases List.mem_map.mp hr with ⟨u, _, rfl⟩
          rfl
      · rw [List.mem_append, List.mem_append] at hr
        rcases hr with (hr | hr) | hr
        · exact hrecids hr
        · rcases List.mem_map.mp hr with ⟨u, _, rfl⟩
          rfl
        · rcases List.mem_map.mp hr with ⟨e, _, rfl⟩
          rfl

/--
**C6** — status rule: every record created by one invocation has status
REQUESTED exactly when the requested role is the copilot role and the caller
is neither admin nor copilot manager, and status PENDING in every other case;
the rule is stated for all records of the invocation, covering the user-id
path and both email paths alike (they all clone the shared `data` template).
-/
theorem c6_status_rule (c : Consts) (caller : Caller) (invite : Invite)
    (projectId : Int) (env : Env) (recs : List InviteRecord)
    (fs : List FailureEntry)
    (h : handlerCore c caller invite projectId env = Except.ok (recs, fs)) :
    ∀ r ∈ recs,
      (r.status = InviteStatus.REQUESTED ↔
        invite.role = c.COPILOT ∧ caller.isAdminOrCopilotManager = false) ∧
      (r.status = InviteStatus.PENDING ↔
        ¬ (invite.role = c.COPILOT ∧ caller.isAdminOrCopilotManager = false)) := by
  unfold handlerCore at h
  by_cases h1 : invite.userIds = none ∧ invite.emails = none
  · rw [if_pos h1] at h
    cases h
  · rw [if_neg h1] at h
    by_cases h2 : ¬ caller.hasManagerRoles = true ∧ invite.role ≠ c.CUSTOMER
    · rw [if_pos h2] at h
      cases h
    · rw [if_neg h2] at h
      injection h with h
      intro r hr
      have hst := build_records_status _ _ _ _ _ _ _ _ r (by rw [h]; exact hr)
      by_cases hc : invite.role = c.COPILOT ∧
          caller.isAdminOrCopilotManager = false
      · have hneg : ¬ (invite.role ≠ c.COPILOT ∨
            caller.isAdminOrCopilotManager = true) := by
          rintro (hx | hx)
          · exact hx hc.1
          · rw [hc.2] at hx
            cases hx
        rw [if_neg hneg] at hst
        refine ⟨⟨fun _ => hc, fun _ => hst⟩, ?_, ?_⟩
        · intro hp
          rw [hst] at hp
          cases hp
        · intro hn
          exact (hn hc).elim
      · have hcond : invite.role ≠ c.COPILOT ∨
            caller.isAdminOrCopilotManager = true := by
          by_cases hr1 : invite.role = c.COPILOT
          · right
            by_cases hr2 : caller.isAdminOrCopilotManager = true
            · exact hr2
            · exact absurd ⟨hr1, by simpa using hr2⟩ hc
          · exact Or.inl hr1
        rw [if_pos hcond] at hst
        refine ⟨⟨?_, fun hx => (hc hx).elim⟩, fun _ => hc, fun _ => hst⟩
        intro hp
        rw [hst] at hp
        cases hp

/-- The record created for userId 7 by an unprivileged copilot-role request. -/
def copilotRecord : InviteRecord :=
  ⟨42, "copilot", InviteStatus.REQUESTED, 1, 1, some 7, none⟩

/-- Witness for C6: a copilot-role request from an unprivileged caller creates
a record with status REQUESTED. -/
theorem c6_status_rule_witness :
    handlerCore cConsts ⟨1, true, false⟩ ⟨some [7], none, "copilot"⟩ 42
        emptyEnv =
      Except.ok ([copilotRecord], []) ∧
    ∀ r ∈ [copilotRecord],
      (r.status = InviteStatus.REQUESTED ↔
        (⟨some [7], none, "copilot"⟩ : Invite).role = cConsts.COPILOT ∧
          (⟨1, true, false⟩ : Caller).isAdminOrCopilotManager = false) ∧
      (r.status = InviteStatus.PENDING ↔
        ¬ ((⟨some [7], none, "copilot"⟩ : Invite).role = cConsts.COPILOT ∧
          (⟨1, true, false⟩ : Caller).isAdminOrCopilotManager = false)) :=
  ⟨by decide,
    c6_status_rule cConsts ⟨1, true, false⟩ ⟨some [7], none, "copilot"⟩ 42
      emptyEnv [copilotRecord] [] (by decide)⟩

/-- With no email candidates, `buildCreateInvitePromises` only builds
user-id-path records, which carry no email. -/
theorem build_emails_none_shape (ouids : Option (List Int)) (role : String)
    (invites : List ExistingInvite) (data : InviteData)
    (failed : List FailureEntry)
    (lookup : Except (Option String) (List LookedUpUser)) (cfg : Bool) :
    ∀ r ∈ (buildCreateInvitePromises ⟨ouids, none, role⟩ invites data failed
        lookup cfg).1,
      r.email = none := by
  intro r hr
  unfold buildCreateInvitePromises at hr
  dsimp only at hr
  rcases ouids with _ | us
  · simp at hr
  · rcases List.mem_map.mp hr with ⟨u, _, rfl⟩
    rfl

/-- Equation form of `build_emails_none_shape`. -/
theorem build_emails_none_eq (ouids : Option (List Int)) (role : String)
    (invites : List ExistingInvite) (data : InviteData)
    (failed : List FailureEntry)
    (lookup : Except (Option String) (List LookedUpUser)) (cfg : Bool)
    (recs : List InviteRecord) (fs : List FailureEntry)
    (h : buildCreateInvitePromises ⟨ouids, none, role⟩ invites data failed
        lookup cfg = (recs, fs)) :
    ∀ r ∈ recs, r.email = none := by
  have h0 := build_emails_none_shape ouids role invites data failed lookup cfg
  rw [h] at h0
  exact h0

/--
**C4 amended** — email-role restriction, for a request that passes the
request-level gate (the caller holds the manager privilege; without it the
gate aborts the request first, see the counterexample): with a non-empty email
set and a non-customer role, the run equals the run of the same request
*without* emails, except that one FailureEntry per candidate email — with the
capital-E message `Emails can only be used for <customer role>` — is prepended
to the failure list; in particular no email-path record is created (second
conjunct) and the user-id candidates are processed exactly as without emails.
-/
theorem c4_amended (c : Consts) (caller : Caller) (us : List Int)
    (es : List String) (role : String) (projectId : Int) (env : Env)
    (hpriv : caller.hasManagerRoles = true) (hrole : role ≠ c.CUSTOMER) :
    handlerCore c caller ⟨some us, some es, role⟩ projectId env =
      (handlerCore c caller ⟨some us, none, role⟩ projectId env).map
        (fun rf => (rf.1, es.map (fun e =>
          (⟨none, some e,
            some ("Emails can only be used for " ++ c.CUSTOMER)⟩ :
            FailureEntry)) ++ rf.2)) ∧
    ∀ recs fs,
      handlerCore c caller ⟨some us, some es, role⟩ projectId env =
        Except.ok (recs, fs) →
      ∀ r ∈ recs, r.email = none := by
  constructor
  · by_cases hm : c.PROJECT_MEMBER_MANAGER_ROLES.contains role = true <;>
      simp [handlerCore, buildCreateInvitePromises, hpriv, hrole, hm,
        Except.map]
  · intro recs fs h r hr
    by_cases hm : c.PROJECT_MEMBER_MANAGER_ROLES.contains role = true <;>
      simp [handlerCore, hpriv, hrole, hm] at h <;>
      exact build_emails_none_eq _ _ _ _ _ _ _ _ _ h r hr

/-- An environment whose role lookups return a manager role. -/
def mgrEnv : Env :=
  { members := [], invites := [],
    roleLookup := fun _ => ["Connect Manager"],
    emailLookup := Except.ok [], uniqueGmailValidation := false }

/-- Witness for C4 (amended) at a concrete input. -/
theorem c4_amended_witness :
    (⟨1, true, false⟩ : Caller).hasManagerRoles = true ∧
    ("manager" : String) ≠ cConsts.CUSTOMER ∧
    (handlerCore cConsts ⟨1, true, false⟩
        ⟨some [7], some ["a@x.com"], "manager"⟩ 42 mgrEnv =
      (handlerCore cConsts ⟨1, true, false⟩ ⟨some [7], none, "manager"⟩ 42
          mgrEnv).map
        (fun rf => (rf.1, ["a@x.com"].map (fun e =>
          (⟨none, some e,
            some ("Emails can only be used for " ++ cConsts.CUSTOMER)⟩ :
            FailureEntry)) ++ rf.2)) ∧
    ∀ recs fs,
      handlerCore cConsts ⟨1, true, false⟩
          ⟨some [7], some ["a@x.com"], "manager"⟩ 42 mgrEnv =
        Except.ok (recs, fs) →
      ∀ r ∈ recs, r.email = none) :=
  ⟨rfl, by decide,
    c4_amended cConsts ⟨1, true, false⟩ [7] ["a@x.com"] "manager" 42 mgrEnv
      rfl (by decide)⟩

/-- With a failed email lookup, `buildCreateInvitePromises` only returns the
user-id-path records pushed before the email stage. -/
theorem build_lookup_error_shape (ouids : Option (List Int)) (role : String)
    (es : List String) (invites : List ExistingInvite) (data : InviteData)
    (failed : List FailureEntry) (msg : Option String) (cfg : Bool) :
    ∀ r ∈ (buildCreateInvitePromises ⟨ouids, some es, role⟩ invites data failed
        (Except.error msg) cfg).1,
      r.email = none := by
  intro r hr
  unfold buildCreateInvitePromises at hr
  dsimp only at hr
  rcases ouids with _ | us
  · simp at hr
  · rcases List.mem_map.mp hr with ⟨u, _, rfl⟩
    rfl

/-- Equation form of `build_lookup_error_shape`. -/
theorem build_lookup_error_eq (ouids : Option (List Int)) (role : String)
    (es : List String) (invites : List ExistingInvite) (data : InviteData)
    (failed : List FailureEntry) (msg : Option String) (cfg : Bool)
    (recs : List InviteRecord) (fs : List FailureEntry)
    (h : buildCreateInvitePromises ⟨ouids, some es, role⟩ invites data failed
        (Except.error msg) cfg = (recs, fs)) :
    ∀ r ∈ recs, r.email = none := by
  have h0 := build_lookup_error_shape ouids role es invites data failed msg cfg
  rw [h] at h0
  exact h0

/--
**C7** — email-lookup failure isolation: with a customer-role request (the
only case in which the email set survives to the lookup) whose bulk email
lookup fails, the run equals the run of the same request without emails except
that one FailureEntry per candidate email, carrying the error's `statusText`,
is appended to the failure list; consequently the failure is not fatal, no
email-path record is created (second conjunct), and the user-id-path records
are still created and returned.
-/
theorem c7_email_lookup_failure (c : Consts) (caller : Caller) (us : List Int)
    (es : List String) (projectId : Int) (env : Env) (msg : Option String)
    (hlook : env.emailLookup = Except.error msg) :
    handlerCore c caller ⟨some us, some es, c.CUSTOMER⟩ projectId env =
      (handlerCore c caller ⟨some us, none, c.CUSTOMER⟩ projectId env).map
        (fun rf => (rf.1, rf.2 ++ es.map (fun e =>
          (⟨none, some e, msg⟩ : FailureEntry)))) ∧
    ∀ recs fs,
      handlerCore c caller ⟨some us, some es, c.CUSTOMER⟩ projectId env =
        Except.ok (recs, fs) →
      ∀ r ∈ recs, r.email = none := by
  constructor
  · by_cases hm : c.PROJECT_MEMBER_MANAGER_ROLES.contains c.CUSTOMER = true <;>
      simp [handlerCore, buildCreateInvitePromises, hlook, hm, Except.map]
  · intro recs fs h r hr
    by_cases hm : c.PROJECT_MEMBER_MANAGER_ROLES.contains c.CUSTOMER = true <;>
      simp [handlerCore, hlook, hm] at h <;>
      exact build_lookup_error_eq _ _ _ _ _ _ _ _ _ _ h r hr

/-- An environment whose bulk email lookup fails with a 503 statusText. -/
def failLookupEnv : Env :=
  { members := [], invites := [], roleLookup := fun _ => [],
    emailLookup := Except.error (some "Service Unavailable"),
    uniqueGmailValidation := false }

/-- Witness for C7 at a concrete input: the user-id record for 7 is still
created while both candidate emails turn into failure entries. -/
theorem c7_email_lookup_failure_witness :
    failLookupEnv.emailLookup = Except.error (some "Service Unavailable") ∧
    (handlerCore cConsts ⟨1, false, false⟩
        ⟨some [7], some ["a@x.com", "b@y.com"], cConsts.CUSTOMER⟩ 42
        failLookupEnv =
      (handlerCore cConsts ⟨1, false, false⟩
          ⟨some [7], none, cConsts.CUSTOMER⟩ 42 failLookupEnv).map
        (fun rf => (rf.1, rf.2 ++ ["a@x.com", "b@y.com"].map (fun e =>
          (⟨none, some e, some "Service Unavailable"⟩ : FailureEntry)))) ∧
    ∀ recs fs,
      handlerCore cConsts ⟨1, false, false⟩
          ⟨some [7], some ["a@x.com", "b@y.com"], cConsts.CUSTOMER⟩ 42
          failLookupEnv =
        Except.ok (recs, fs) →
      ∀ r ∈ recs, r.email = none) :=
  ⟨rfl,
    c7_email_lookup_failure cConsts ⟨1, false, false⟩ [7]
      ["a@x.com", "b@y.com"] 42 failLookupEnv (some "Service Unavailable")
      rfl⟩

/--
**C5 amended** — per-candidate manager authorization, with the message the
code actually uses (capital M, see the counterexample) and the implicit
preconditions made explicit (manager-privileged caller, both candidates not
already members, the surviving candidate not already invited): of the two
user-id candidates requesting a manager-tier role, exactly the one whose
fetched role set intersects the manager role set is created; the other one
becomes the FailureEntry `cannot be added with a Manager role to the project`
and is removed from the creation set.
-/
theorem c5_amended (c : Consts) (caller : Caller) (u1 u2 : Int) (role : String)
    (projectId : Int) (env : Env)
    (hpriv : caller.hasManagerRoles = true)
    (hmtier : c.PROJECT_MEMBER_MANAGER_ROLES.contains role = true)
    (hm1 : u1 ∉ env.members) (hm2 : u2 ∉ env.members)
    (hi1 : ∀ i ∈ env.invites, i.userId ≠ some u1)
    (hr1 : hasIntersection c.MANAGER_ROLES (env.roleLookup u1) = true)
    (hr2 : hasIntersection c.MANAGER_ROLES (env.roleLookup u2) = false) :
    handler c caller ⟨some [u1, u2], none, role⟩ projectId env =
      HandlerResult.mixed
        [⟨projectId, role,
          (if role ≠ c.COPILOT ∨ caller.isAdminOrCopilotManager = true
            then InviteStatus.PENDING else InviteStatus.REQUESTED),
          caller.userId, caller.userId, some u1, none⟩]
        [⟨some u2, none,
          some "cannot be added with a Manager role to the project"⟩] := by
  have hne : u1 ≠ u2 := by
    intro hEq
    rw [hEq] at hr1
    rw [hr1] at hr2
    cases hr2
  have hc1 : env.members.contains u1 = false := by simp [hm1]
  have hc2 : env.members.contains u2 = false := by simp [hm2]
  have hany1 : env.invites.any (fun i => i.userId == some u1) = false := by
    simp only [List.any_eq_false, beq_iff_eq]
    exact hi1
  have hmtier' : role ∈ c.PROJECT_MEMBER_MANAGER_ROLES := by simpa using hmtier
  simp [handler, handlerCore, buildCreateInvitePromises, respond, hpriv,
    hmtier', hm1, hm2, hr1, hr2, hany1, hne, mkUserIdRecord, beq_iff_eq,
    List.filter_cons, List.filter_nil]

/-- An environment for the C5 witness: candidate 11 has a manager role,
candidate 22 has none. -/
def roleSplitEnv : Env :=
  { members := [], invites := [],
    roleLookup := fun u => if u = 11 then ["Connect Manager"] else [],
    emailLookup := Except.ok [], uniqueGmailValidation := false }

/-- Witness for C5 (amended) at a concrete input. -/
theorem c5_amended_witness :
    (⟨1, true, false⟩ : Caller).hasManagerRoles = true ∧
    cConsts.PROJECT_MEMBER_MANAGER_ROLES.contains "manager" = true ∧
    (11 : Int) ∉ roleSplitEnv.members ∧ (22 : Int) ∉ roleSplitEnv.members ∧
    (∀ i ∈ roleSplitEnv.invites, i.userId ≠ some 11) ∧
    hasIntersection cConsts.MANAGER_ROLES (roleSplitEnv.roleLookup 11) = true ∧
    hasIntersection cConsts.MANAGER_ROLES (roleSplitEnv.roleLookup 22) = false ∧
    handler cConsts ⟨1, true, false⟩ ⟨some [11, 22], none, "manager"⟩ 42
        roleSplitEnv =
      HandlerResult.mixed
        [⟨42, "manager",
          (if ("manager" : String) ≠ cConsts.COPILOT ∨
              (⟨1, true, false⟩ : Caller).isAdminOrCopilotManager = true
            then InviteStatus.PENDING else InviteStatus.REQUESTED),
          1, 1, some 11, none⟩]
        [⟨some 22, none,
          some "cannot be added with a Manager role to the project"⟩] :=
  ⟨rfl, by decide, by decide, by decide, by decide, by decide, by decide,
    c5_amended cConsts ⟨1, true, false⟩ 11 22 "manager" 42 roleSplitEnv rfl
      (by decide) (by decide) (by decide) (by decide) (by decide) (by decide)⟩

/-- Modelled from the spec: the Invite Materializer of §4.6 states that for
email-path candidates the equivalence dedup against `ExistingInvite` is
re-run, "registered-identity candidates use the baseline (non-aliased)
equivalence rule" — i.e. a registered candidate would be kept only when no
existing invite's email is baseline-equivalent to the candidate account's
email.  This definition follows those words; the code (create.js line 100)
instead matches existing invites by userId. -/
def specRegisteredDedupKeeps (invites : List ExistingInvite)
    (u : LookedUpUser) : Bool :=
  ! invites.any (fun i =>
    jsToLower (optStr i.email) == jsToLower (optStr u.email))

/--
**C8 counterexample** — an existing pending invite stores exactly the
candidate email (no userId, as email invites do), and the candidate resolves
to registered account 5.  The spec's baseline-equivalence dedup would drop the
candidate (second conjunct: `specRegisteredDedupKeeps` is false), but the code
dedups registered candidates by *userId* and creates the record (first
conjunct).
-/
theorem c8_counterexample :
    buildCreateInvitePromises ⟨none, some ["reg@x.com"], "customer"⟩
        [⟨none, some "reg@x.com"⟩] ⟨42, "customer", InviteStatus.PENDING, 1, 1⟩
        [] (Except.ok [⟨5, some "reg@x.com"⟩]) false =
      ([⟨42, "customer", InviteStatus.PENDING, 1, 1, some 5,
          some "reg@x.com"⟩], []) ∧
    specRegisteredDedupKeeps [⟨none, some "reg@x.com"⟩]
      ⟨5, some "reg@x.com"⟩ = false := by
  refine ⟨by decide, by decide⟩

/-- Elements of a `filterNotMatchedE` result are exactly the input emails
whose comparison against every existing invite returned false. -/
theorem filterNotMatchedE_mem (cfg : Bool) (invites : List ExistingInvite) :
    ∀ (l l' : List String), filterNotMatchedE cfg invites l = Except.ok l' →
    ∀ e, e ∈ l' ↔
      (e ∈ l ∧ someInviteEmailMatch cfg e invites = Except.ok false) := by
  intro l
  induction l with
  | nil =>
    intro l' h e
    unfold filterNotMatchedE at h
    injection h with h
    subst h
    simp
  | cons a as ih =>
    intro l' h e
    unfold filterNotMatchedE at h
    rcases ha : someInviteEmailMatch cfg a invites with msg | b <;>
      rw [ha] at h
    · cases h
    · rcases hrest : filterNotMatchedE cfg invites as with msg | rest <;>
        rw [hrest] at h
      · cases h
      · injection h with h
        subst h
        have hih := ih rest hrest e
        cases b
        · rw [if_neg Bool.false_ne_true]
          constructor
          · intro hm
            rcases List.mem_cons.mp hm with rfl | hm
            · exact ⟨List.mem_cons_self _ _, ha⟩
            · rcases hih.mp hm with ⟨h1, h2⟩
              exact ⟨List.mem_cons_of_mem _ h1, h2⟩
          · rintro ⟨h1, h2⟩
            rcases List.mem_cons.mp h1 with rfl | h1
            · exact List.mem_cons_self _ _
            · exact List.mem_cons_of_mem _ (hih.mpr ⟨h1, h2⟩)
        · simp only [if_pos rfl]
          constructor
          · intro hm
            rcases hih.mp hm with ⟨h1, h2⟩
            exact ⟨List.mem_cons_of_mem _ h1, h2⟩
          · rintro ⟨h1, h2⟩
            rcases List.mem_cons.mp h1 with rfl | h1
            · rw [ha] at h2
              cases h2
            · exact hih.mpr ⟨h1, h2⟩

/--
**C8 amended** — materializer dedup, as the code performs it: in a pure email
run that finishes without failures, (1) every created record is either a
registered-candidate record for a looked-up account with no existing invite
carrying its *userId*, or an unregistered-email record for a candidate that
matches no looked-up account under the baseline rule and no existing invite
under the *configured aliased* rule; (2)–(3) conversely every such candidate
yields its record; (4)–(5) registered records carry userId plus the
lower-cased account email, unregistered records carry only the lower-cased
candidate email.  The asymmetry of the claim survives only in the partition
(baseline rule) and the unregistered dedup (aliased rule); the registered
dedup against existing invites uses userId equality, not the baseline rule.
-/
theorem c8_amended (es : List String) (role : String)
    (invites : List ExistingInvite) (data : InviteData)
    (users : List LookedUpUser) (cfg : Bool) (recs : List InviteRecord)
    (hok : buildCreateInvitePromises ⟨none, some es, role⟩ invites data []
        (Except.ok users) cfg = (recs, [])) :
    (∀ r ∈ recs,
      (∃ u ∈ users,
        (∀ i ∈ invites, i.userId ≠ some u.id) ∧
        r = mkRegisteredRecord data u) ∨
      (∃ e ∈ es,
        (∀ v ∈ users, jsToLower (optStr v.email) ≠ jsToLower e) ∧
        someInviteEmailMatch cfg e invites = Except.ok false ∧
        r = mkEmailRecord data e)) ∧
    (∀ u ∈ users, (∀ i ∈ invites, i.userId ≠ some u.id) →
      mkRegisteredRecord data u ∈ recs) ∧
    (∀ e ∈ es, (∀ v ∈ users, jsToLower (optStr v.email) ≠ jsToLower e) →
      someInviteEmailMatch cfg e invites = Except.ok false →
      mkEmailRecord data e ∈ recs) ∧
    (∀ u : LookedUpUser, (mkRegisteredRecord data u).userId = some u.id ∧
      (mkRegisteredRecord data u).email = u.email.map jsToLower) ∧
    (∀ e : String, (mkEmailRecord data e).userId = none ∧
      (mkEmailRecord data e).email = some (jsToLower e)) := by
  unfold buildCreateInvitePromises at hok
  dsimp only at hok
  rcases hfm : filterNotMatchedE cfg invites
      (es.filter (fun e => ! users.any (fun v =>
        jsToLower (optStr v.email) == jsToLower e))) with msg | nonEx2 <;>
    rw [hfm] at hok <;> dsimp only at hok
  · exfalso
    have h2 := congrArg Prod.snd hok
    simp only [List.nil_append] at h2
    have hes : es = [] := List.map_eq_nil_iff.mp h2
    subst hes
    simp [filterNotMatchedE] at hfm
  · have h1 := congrArg Prod.fst hok
    simp only [List.nil_append] at h1
    subst h1
    refine ⟨?_, ?_, ?_, fun u => ⟨rfl, rfl⟩, fun e => ⟨rfl, rfl⟩⟩
    · intro r hr
      rcases List.mem_append.mp hr with hr | hr
      · rcases List.mem_map.mp hr with ⟨u, hu, rfl⟩
        rcases List.mem_filter.mp hu with ⟨hu1, hu2⟩
        refine Or.inl ⟨u, hu1, ?_, rfl⟩
        have : invites.any (fun i => i.userId == some u.id) = false := by
          simpa using hu2
        simpa only [List.any_eq_false, beq_iff_eq] using this
      · rcases List.mem_map.mp hr with ⟨e, he, rfl⟩
        have hmem := (filterNotMatchedE_mem cfg invites _ nonEx2 hfm e).mp he
        rcases hmem with ⟨h1, h2⟩
        rcases List.mem_filter.mp h1 with ⟨h3, h4⟩
        refine Or.inr ⟨e, h3, ?_, h2, rfl⟩
        have : users.any (fun v =>
            jsToLower (optStr v.email) == jsToLower e) = false := by
          simpa using h4
        simpa only [List.any_eq_false, beq_iff_eq] using this
    · intro u hu hinv
      refine List.mem_append.mpr (Or.inl (List.mem_map.mpr ⟨u, ?_, rfl⟩))
      refine List.mem_filter.mpr ⟨hu, ?_⟩
      have : invites.any (fun i => i.userId == some u.id) = false := by
        simpa only [List.any_eq_false, beq_iff_eq] using hinv
      simp [this]
    · intro e he hnv hsm
      refine List.mem_append.mpr (Or.inr (List.mem_map.mpr ⟨e, ?_, rfl⟩))
      refine (filterNotMatchedE_mem cfg invites _ nonEx2 hfm e).mpr ⟨?_, hsm⟩
      refine List.mem_filter.mpr ⟨he, ?_⟩
      have : users.any (fun v =>
          jsToLower (optStr v.email) == jsToLower e) = false := by
        simpa only [List.any_eq_false, beq_iff_eq] using hnv
      simp [this]

/-- The `data` template used by the C8 witness. -/
def regData : InviteData := ⟨42, "customer", InviteStatus.PENDING, 1, 1⟩

/-- The registered account returned by the email lookup in the C8 witness. -/
def regUser : LookedUpUser := ⟨5, some "a@x.com"⟩

/-- Witness for C8 (amended): candidate `A@x.com` resolves to account 5 and
is created as a registered record; candidate `b@y.com` stays unregistered and
is created as an email-only record. -/
theorem c8_amended_witness :
    buildCreateInvitePromises ⟨none, some ["b@y.com", "A@x.com"], "customer"⟩
        [] regData [] (Except.ok [regUser]) true =
      ([mkRegisteredRecord regData regUser, mkEmailRecord regData "b@y.com"],
        []) ∧
    ((∀ r ∈ [mkRegisteredRecord regData regUser,
        mkEmailRecord regData "b@y.com"],
      (∃ u ∈ [regUser],
        (∀ i ∈ ([] : List ExistingInvite), i.userId ≠ some u.id) ∧
        r = mkRegisteredRecord regData u) ∨
      (∃ e ∈ ["b@y.com", "A@x.com"],
        (∀ v ∈ [regUser], jsToLower (optStr v.email) ≠ jsToLower e) ∧
        someInviteEmailMatch true e [] = Except.ok false ∧
        r = mkEmailRecord regData e)) ∧
    (∀ u ∈ [regUser],
      (∀ i ∈ ([] : List ExistingInvite), i.userId ≠ some u.id) →
      mkRegisteredRecord regData u ∈
        [mkRegisteredRecord regData regUser,
          mkEmailRecord regData "b@y.com"]) ∧
    (∀ e ∈ ["b@y.com", "A@x.com"],
      (∀ v ∈ [regUser], jsToLower (optStr v.email) ≠ jsToLower e) →
      someInviteEmailMatch true e [] = Except.ok false →
      mkEmailRecord regData e ∈
        [mkRegisteredRecord regData regUser,
          mkEmailRecord regData "b@y.com"]) ∧
    (∀ u : LookedUpUser, (mkRegisteredRecord regData u).userId = some u.id ∧
      (mkRegisteredRecord regData u).email = u.email.map jsToLower) ∧
    (∀ e : String, (mkEmailRecord regData e).userId = none ∧
      (mkEmailRecord regData e).email = some (jsToLower e))) :=
  ⟨by decide,
    c8_amended ["b@y.com", "A@x.com"] "customer" [] regData [regUser] true
      [mkRegisteredRecord regData regUser, mkEmailRecord regData "b@y.com"]
      (by decide)⟩

/-- When every email of the list matches some existing invite under the
configured comparison, the unregistered dedup removes all of them. -/
theorem filterNotMatchedE_all (cfg : Bool) (invites : List ExistingInvite) :
    ∀ l : List String,
    (∀ e ∈ l, someInviteEmailMatch cfg e invites = Except.ok true) →
    filterNotMatchedE cfg invites l = Except.ok [] := by
  intro l
  induction l with
  | nil => intro _; rfl
  | cons a as ih =>
    intro h
    unfold filterNotMatchedE
    rw [h a (List.mem_cons_self _ _),
      ih (fun e he => h e (List.mem_cons_of_mem _ he))]
    rfl

/-- `buildCreateInvitePromises` creates no record when every user-id candidate
is already invited (matched by userId), every looked-up registered account is
already invited (matched by userId), and every unregistered email candidate
matches some existing invite under the configured comparison. -/
theorem build_all_invited (ouids : Option (List Int))
    (oems : Option (List String)) (role : String)
    (invites : List ExistingInvite) (data : InviteData)
    (failed : List FailureEntry)
    (lookup : Except (Option String) (List LookedUpUser)) (cfg : Bool)
    (hu : ∀ us, ouids = some us → ∀ u ∈ us,
      invites.any (fun i => i.userId == some u) = true)
    (he : ∀ es, oems = some es → ∃ users,
      lookup = Except.ok users ∧
      (∀ v ∈ users, invites.any (fun i => i.userId == some v.id) = true) ∧
      (∀ e ∈ es,
        (! users.any (fun v => jsToLower (optStr v.email) == jsToLower e)) =
          true →
        someInviteEmailMatch cfg e invites = Except.ok true)) :
    buildCreateInvitePromises ⟨ouids, oems, role⟩ invites data failed lookup
      cfg = ([], failed) := by
  have hrec1 : (match ouids with
      | some us => (us.filter (fun u =>
          ! invites.any (fun i => i.userId == some u))).map
        (mkUserIdRecord data)
      | none => ([] : List InviteRecord)) = [] := by
    rcases ouids with _ | us
    · rfl
    · have : us.filter (fun u =>
          ! invites.any (fun i => i.userId == some u)) = [] := by
        refine List.filter_eq_nil_iff.mpr ?_
        intro u hmem
        simp [hu us rfl u hmem]
      simp [this]
  unfold buildCreateInvitePromises
  rcases oems with _ | es
  · dsimp only
    rw [hrec1]
  · rcases he es rfl with ⟨users, hl, hv, hm⟩
    rw [hl]
    dsimp only
    have hex : users.filter (fun v =>
        ! invites.any (fun i => i.userId == some v.id)) = [] := by
      refine List.filter_eq_nil_iff.mpr ?_
      intro v hmem
      simp [hv v hmem]
    have hfm : filterNotMatchedE cfg invites
        (es.filter (fun e => ! users.any (fun v =>
          jsToLower (optStr v.email) == jsToLower e))) = Except.ok [] := by
      refine filterNotMatchedE_all cfg invites _ ?_
      intro e hmem
      rcases List.mem_filter.mp hmem with ⟨h1, h2⟩
      exact hm e h1 h2
    rw [hfm]
    dsimp only
    rw [hrec1, hex]
    simp

/--
**C1 amended** — idempotence of the record-creating part, under the
hypotheses the dedup stages actually guarantee: a request all of whose user-id
candidates are already members or already invited (matched by userId), that
passes the request gate, whose already-invited non-member candidates pass the
per-candidate manager check when a manager-tier role is requested, and whose
emails (necessarily with the customer role) resolve to registered accounts
already invited by userId or to unregistered emails matching some pending
invite under the configured comparison, creates zero InviteRecords and zero
FailureEntries: the response is the 201 success result with an empty list.
(Without these hypotheses the claim fails, see the counterexample: a
duplicated candidate userId yields two records for one (projectId, userId)
pair in a single invocation.)
-/
theorem c1_amended (c : Consts) (caller : Caller) (us : List Int)
    (oes : Option (List String)) (role : String) (projectId : Int) (env : Env)
    (lookedUp : List LookedUpUser)
    (hgate : caller.hasManagerRoles = true ∨ role = c.CUSTOMER)
    (husers : ∀ u ∈ us, u ∈ env.members ∨ ∃ i ∈ env.invites, i.userId = some u)
    (hmgr : c.PROJECT_MEMBER_MANAGER_ROLES.contains role = true →
      ∀ u ∈ us, u ∉ env.members →
      hasIntersection c.MANAGER_ROLES (env.roleLookup u) = true)
    (hcust : oes ≠ none → role = c.CUSTOMER)
    (hlook : oes ≠ none → env.emailLookup = Except.ok lookedUp)
    (hreg : ∀ v ∈ lookedUp, ∃ i ∈ env.invites, i.userId = some v.id)
    (hunreg : ∀ es, oes = some es → ∀ e ∈ es,
      (∀ v ∈ lookedUp, jsToLower (optStr v.email) ≠ jsToLower e) →
      someInviteEmailMatch env.uniqueGmailValidation e env.invites =
        Except.ok true) :
    handler c caller ⟨some us, oes, role⟩ projectId env =
      HandlerResult.success [] := by
  have hgate2 : ¬ (¬ caller.hasManagerRoles = true ∧ role ≠ c.CUSTOMER) := by
    rcases hgate with h | h
    · exact fun hc => hc.1 h
    · exact fun hc => hc.2 h
  have hanyinv : ∀ u ∈ us, u ∉ env.members →
      env.invites.any (fun i => i.userId == some u) = true := by
    intro u hu hnm
    rcases husers u hu with h | ⟨i, hi, hiu⟩
    · exact absurd h hnm
    · exact List.any_eq_true.mpr ⟨i, hi, by simp [hiu]⟩
  have hus1 : ∀ u ∈ us.filter (fun v => ! env.members.contains v),
      u ∈ us ∧ u ∉ env.members := by
    intro u hu
    rcases List.mem_filter.mp hu with ⟨h1, h2⟩
    refine ⟨h1, fun hmem => ?_⟩
    simp [hmem] at h2
  have hvany : ∀ v ∈ lookedUp,
      env.invites.any (fun i => i.userId == some v.id) = true := by
    intro v hv
    rcases hreg v hv with ⟨i, hi, hiu⟩
    exact List.any_eq_true.mpr ⟨i, hi, by simp [hiu]⟩
  have hcore : handlerCore c caller ⟨some us, oes, role⟩ projectId env =
      Except.ok ([], []) := by
    unfold handlerCore
    rw [if_neg (by simp), if_neg hgate2]
    have huproof : ∀ X : List Int,
        (∀ u ∈ X, u ∈ us.filter (fun v => ! env.members.contains v)) →
        ∀ usx, (some X : Option (List Int)) = some usx → ∀ u ∈ usx,
        env.invites.any (fun i => i.userId == some u) = true := by
      intro X hX usx hx u hu
      injection hx with hx
      subst hx
      rcases hus1 u (hX u hu) with ⟨h2, h3⟩
      exact hanyinv u h2 h3
    rcases oes with _ | es
    · by_cases hm : c.PROJECT_MEMBER_MANAGER_ROLES.contains role = true
      · have hforbid : (us.filter (fun v => ! env.members.contains v)).filter
            (fun u => ! hasIntersection c.MANAGER_ROLES (env.roleLookup u)) =
              [] := by
          refine List.filter_eq_nil_iff.mpr ?_
          intro u hu
          rcases hus1 u hu with ⟨h1, h2⟩
          simp [hmgr hm u h1 h2]
        dsimp only
        simp only [Option.map_some', hm, if_true, hforbid, List.map_nil,
          List.append_nil, List.nil_append]
        rw [build_all_invited]
        · exact huproof _ (fun u hu => (List.mem_filter.mp hu).1)
        · intro esx hx
          cases hx
      · dsimp only
        simp only [Option.map_some', hm, Bool.false_eq_true, if_false]
        rw [build_all_invited]
        · rfl
        · exact huproof _ (fun u hu => hu)
        · intro esx hx
          cases hx
    · have hrole : role = c.CUSTOMER := hcust (by simp)
      have hlook2 : env.emailLookup = Except.ok lookedUp := hlook (by simp)
      have hthey : ∀ esx, (some es : Option (List String)) = some esx →
          ∃ users, env.emailLookup = Except.ok users ∧
          (∀ v ∈ users,
            env.invites.any (fun i => i.userId == some v.id) = true) ∧
          (∀ e ∈ esx,
            (! users.any (fun v =>
              jsToLower (optStr v.email) == jsToLower e)) = true →
            someInviteEmailMatch env.uniqueGmailValidation e env.invites =
              Except.ok true) := by
        intro esx hx
        injection hx with hx
        subst hx
        refine ⟨lookedUp, hlook2, hvany, ?_⟩
        intro e he hne
        refine hunreg es rfl e he ?_
        intro v hv
        have hf : lookedUp.any (fun v =>
            jsToLower (optStr v.email) == jsToLower e) = false := by
          simpa using hne
        have := List.any_eq_false.mp hf v hv
        simpa [beq_iff_eq] using this
      by_cases hm : c.PROJECT_MEMBER_MANAGER_ROLES.contains role = true
      · have hforbid : (us.filter (fun v => ! env.members.contains v)).filter
            (fun u => ! hasIntersection c.MANAGER_ROLES (env.roleLookup u)) =
              [] := by
          refine List.filter_eq_nil_iff.mpr ?_
          intro u hu
          rcases hus1 u hu with ⟨h1, h2⟩
          simp [hmgr hm u h1 h2]
        dsimp only
        simp only [Option.map_some', hm, if_true, hforbid, List.map_nil,
          List.append_nil, List.nil_append,
          if_neg (by simp [hrole] : ¬ role ≠ c.CUSTOMER)]
        rw [build_all_invited]
        · exact huproof _ (fun u hu => (List.mem_filter.mp hu).1)
        · exact hthey
      · dsimp only
        simp only [Option.map_some', hm, Bool.false_eq_true, if_false,
          List.append_nil, List.nil_append,
          if_neg (by simp [hrole] : ¬ role ≠ c.CUSTOMER)]
        rw [build_all_invited]
        · exact huproof _ (fun u hu => hu)
        · exact hthey
  unfold handler
  rw [hcore]
  rfl

/-- An environment for the C1 witness: user 5 and registered user 7 are
already invited by userId, and `other@z.com` is already invited by email. -/
def idemEnv : Env :=
  { members := [],
    invites := [⟨some 5, none⟩, ⟨some 7, some "x@y.com"⟩,
      ⟨none, some "other@z.com"⟩],
    roleLookup := fun _ => [],
    emailLookup := Except.ok [⟨7, some "x@y.com"⟩],
    uniqueGmailValidation := false }

/-- Witness for C1 (amended): re-inviting userId 5, the registered email
`x@y.com` (account 7, already invited) and the unregistered email
`other@z.com` (already invited by email) creates nothing and fails nothing. -/
theorem c1_amended_witness :
    ((⟨1, true, false⟩ : Caller).hasManagerRoles = true ∨
      ("customer" : String) = cConsts.CUSTOMER) ∧
    (∀ u ∈ [(5 : Int)],
      u ∈ idemEnv.members ∨ ∃ i ∈ idemEnv.invites, i.userId = some u) ∧
    (cConsts.PROJECT_MEMBER_MANAGER_ROLES.contains "customer" = true →
      ∀ u ∈ [(5 : Int)], u ∉ idemEnv.members →
      hasIntersection cConsts.MANAGER_ROLES (idemEnv.roleLookup u) = true) ∧
    ((some ["x@y.com", "other@z.com"] : Option (List String)) ≠ none →
      ("customer" : String) = cConsts.CUSTOMER) ∧
    ((some ["x@y.com", "other@z.com"] : Option (List String)) ≠ none →
      idemEnv.emailLookup =
        Except.ok [(⟨7, some "x@y.com"⟩ : LookedUpUser)]) ∧
    (∀ v ∈ [(⟨7, some "x@y.com"⟩ : LookedUpUser)],
      ∃ i ∈ idemEnv.invites, i.userId = some v.id) ∧
    (∀ es, (some ["x@y.com", "other@z.com"] : Option (List String)) =
        some es → ∀ e ∈ es,
      (∀ v ∈ [(⟨7, some "x@y.com"⟩ : LookedUpUser)],
        jsToLower (optStr v.email) ≠ jsToLower e) →
      someInviteEmailMatch idemEnv.uniqueGmailValidation e idemEnv.invites =
        Except.ok true) ∧
    handler cConsts ⟨1, true, false⟩
        ⟨some [5], some ["x@y.com", "other@z.com"], "customer"⟩ 42 idemEnv =
      HandlerResult.success [] :=
  ⟨Or.inl rfl, by decide, by decide, by decide, by decide, by decide,
    by
      intro es hx
      injection hx with hx
      subst hx
      decide,
    c1_amended cConsts ⟨1, true, false⟩ [5] (some ["x@y.com", "other@z.com"])
      "customer" 42 idemEnv [⟨7, some "x@y.com"⟩] (Or.inl rfl) (by decide)
      (by decide) (by decide) (by decide) (by decide)
      (by
        intro es hx
        injection hx with hx
        subst hx
        decide)⟩

/-! ## Dot insensitivity of the provider-alias rule (for C2) -/

/-- Interleave a local part with optional dots: `withDots cs ds` inserts a
dot after the i-th character when `ds` holds `true` there; no dot can be
appended after the last character. -/
def withDots : List Char → List Bool → List Char
  | [], _ => []
  | [c], _ => [c]
  | c :: cs, [] => c :: withDots cs []
  | c :: cs, d :: ds =>
      c :: cond d ('.' :: withDots cs ds) (withDots cs ds)

theorem withDots_nil (ds : List Bool) : withDots [] ds = [] := by
  cases ds <;> rfl

theorem withDots_singleton (c : Char) (ds : List Bool) :
    withDots [c] ds = [c] := by
  cases ds <;> rfl

theorem withDots_cons2_nil (c c2 : Char) (cs : List Char) :
    withDots (c :: c2 :: cs) [] = c :: withDots (c2 :: cs) [] := rfl

theorem withDots_cons2_cons (c c2 : Char) (cs : List Char) (d : Bool)
    (ds : List Bool) :
    withDots (c :: c2 :: cs) (d :: ds) =
      c :: cond d ('.' :: withDots (c2 :: cs) ds) (withDots (c2 :: cs) ds) :=
  rfl

theorem withDots_ne_nil :
    ∀ (cs : List Char) (ds : List Bool), cs ≠ [] → withDots cs ds ≠ [] := by
  intro cs ds h
  rcases cs with _ | ⟨c, cs⟩
  · exact absurd rfl h
  · rcases cs with _ | ⟨c2, cs⟩
    · rw [withDots_singleton]
      simp
    · rcases ds with _ | ⟨d, ds⟩
      · rw [withDots_cons2_nil]
        simp
      · rw [withDots_cons2_cons]
        simp

theorem withDots_mem :
    ∀ (cs : List Char) (ds : List Bool) (x : Char), x ∈ withDots cs ds →
      x ∈ cs ∨ x = '.' := by
  intro cs
  induction cs with
  | nil =>
    intro ds x hx
    rw [withDots_nil] at hx
    simp at hx
  | cons c cs ih =>
    intro ds x hx
    rcases cs with _ | ⟨c2, cs2⟩
    · rw [withDots_singleton] at hx
      exact Or.inl hx
    · rcases ds with _ | ⟨d, ds⟩
      · rw [withDots_cons2_nil] at hx
        rcases List.mem_cons.mp hx with rfl | hx
        · exact Or.inl (List.mem_cons_self _ _)
        · rcases ih [] x hx with h | h
          · exact Or.inl (List.mem_cons_of_mem _ h)
          · exact Or.inr h
      · rw [withDots_cons2_cons] at hx
        rcases List.mem_cons.mp hx with rfl | hx
        · exact Or.inl (List.mem_cons_self _ _)
        · rcases d with _ | _
          · rcases ih ds x hx with h | h
            · exact Or.inl (List.mem_cons_of_mem _ h)
            · exact Or.inr h
          · rcases List.mem_cons.mp hx with rfl | hx
            · exact Or.inr rfl
            · rcases ih ds x hx with h | h
              · exact Or.inl (List.mem_cons_of_mem _ h)
              · exact Or.inr h

theorem withDots_all_false :
    ∀ (cs : List Char) (ds : List Bool), (∀ d ∈ ds, d = false) →
      withDots cs ds = cs := by
  intro cs
  induction cs with
  | nil => intro ds _; exact withDots_nil ds
  | cons c cs ih =>
    intro ds hds
    rcases cs with _ | ⟨c2, cs2⟩
    · exact withDots_singleton c ds
    · rcases ds with _ | ⟨d, ds⟩
      · rw [withDots_cons2_nil, ih [] (by simp)]
      · have hd : d = false := hds d (List.mem_cons_self _ _)
        subst hd
        rw [withDots_cons2_cons]
        show c :: withDots (c2 :: cs2) ds = c :: c2 :: cs2
        rw [ih ds (fun b hb => hds b (List.mem_cons_of_mem _ hb))]

theorem removeFirstDot_no_dot :
    ∀ l : List Char, (∀ c ∈ l, c ≠ '.') → removeFirstDot l = l := by
  intro l
  induction l with
  | nil => intro _; rfl
  | cons c cs ih =>
    intro h
    unfold removeFirstDot
    rw [if_neg (h c (List.mem_cons_self _ _)),
      ih (fun x hx => h x (List.mem_cons_of_mem _ hx))]

/-- Removing the first dot of a local part with at most one interleaved dot
recovers the dot-free local part. -/
theorem removeFirstDot_withDots :
    ∀ (cs : List Char) (ds : List Bool), (∀ c ∈ cs, c ≠ '.') →
      ds.count true ≤ 1 → removeFirstDot (withDots cs ds) = cs := by
  intro cs
  induction cs with
  | nil => intro ds _ _; rw [withDots_nil]; rfl
  | cons c cs ih =>
    intro ds hnd hcount
    rcases cs with _ | ⟨c2, cs2⟩
    · rw [withDots_singleton]
      exact removeFirstDot_no_dot [c] hnd
    · rcases ds with _ | ⟨d, ds⟩
      · rw [withDots_cons2_nil, withDots_all_false _ [] (by simp)]
        exact removeFirstDot_no_dot _ hnd
      · rcases d with _ | _
        · rw [withDots_cons2_cons]
          show removeFirstDot (c :: withDots (c2 :: cs2) ds) = c :: c2 :: cs2
          unfold removeFirstDot
          rw [if_neg (hnd c (List.mem_cons_self _ _))]
          rw [ih ds (fun x hx => hnd x (List.mem_cons_of_mem _ hx))
            (by simpa using hcount)]
        · have hzero : ∀ b ∈ ds, b = false := by
            have h1 : ds.count true = 0 := by
              have h2 := hcount
              simp [List.count_cons] at h2
              omega
            intro b hb
            rcases b with _ | _
            · rfl
            · exact absurd hb (List.count_eq_zero.mp h1)
          rw [withDots_cons2_cons]
          show removeFirstDot (c :: '.' :: withDots (c2 :: cs2) ds) =
            c :: c2 :: cs2
          unfold removeFirstDot
          rw [if_neg (hnd c (List.mem_cons_self _ _))]
          unfold removeFirstDot
          rw [if_pos rfl]
          rw [withDots_all_false _ ds hzero]

/-- A run of literal tokens matches the corresponding characters, whatever
follows. -/
theorem matchToks_lits :
    ∀ (l ds : List Char), matchToks (l.map RToken.lit) (l ++ ds) = true := by
  intro l
  induction l with
  | nil => intro ds; rfl
  | cons c cs ih =>
    intro ds
    simp [matchToks, ih]

theorem matchToks_lit_cons (a : Char) (ts : List RToken) (ds : List Char) :
    matchToks (RToken.lit a :: ts) (a :: ds) = matchToks ts ds := by
  simp [matchToks]

theorem matchToks_optDot_skip (ts : List RToken) (ds : List Char)
    (h : matchToks ts ds = true) :
    matchToks (RToken.optDot :: ts) ds = true := by
  simp only [matchToks, h]
  simp

theorem matchToks_optDot_dot (ts : List RToken) (ds : List Char)
    (h : matchToks ts ds = true) :
    matchToks (RToken.optDot :: ts) ('.' :: ds) = true := by
  simp [matchToks, h]

/-- The interleaved pattern built from a dot-free local part matches that
local part with any single dots inserted between consecutive characters. -/
theorem matchToks_interleave :
    ∀ (cs : List Char) (ds : List Bool) (rest : List RToken)
      (tail : List Char), cs ≠ [] → (∀ c ∈ cs, c ≠ '.') →
      matchToks rest tail = true →
      matchToks (interleave cs ++ rest) (withDots cs ds ++ tail) = true := by
  intro cs
  induction cs with
  | nil => intro ds rest tail h; exact absurd rfl h
  | cons c cs ih =>
    intro ds rest tail _ hnd hrest
    have htok : tokChar c = RToken.lit c :=
      if_neg (hnd c (List.mem_cons_self _ _))
    rcases cs with _ | ⟨c2, cs2⟩
    · rw [withDots_singleton]
      have hint : interleave [c] = [RToken.lit c] := by
        rw [show interleave [c] = [tokChar c] from rfl, htok]
      rw [hint]
      show matchToks (RToken.lit c :: rest) (c :: tail) = true
      rw [matchToks_lit_cons]
      exact hrest
    · have hnd2 : ∀ x ∈ c2 :: cs2, x ≠ '.' :=
        fun x hx => hnd x (List.mem_cons_of_mem _ hx)
      have hne2 : (c2 :: cs2 : List Char) ≠ [] := by simp
      have hint : interleave (c :: c2 :: cs2) =
          RToken.lit c :: RToken.optDot :: interleave (c2 :: cs2) := by
        rw [show interleave (c :: c2 :: cs2) =
          tokChar c :: RToken.optDot :: interleave (c2 :: cs2) from rfl, htok]
      rw [hint]
      rcases ds with _ | ⟨d, ds⟩
      · rw [withDots_cons2_nil]
        simp only [List.cons_append]
        rw [matchToks_lit_cons]
        exact matchToks_optDot_skip _ _ (ih [] rest tail hne2 hnd2 hrest)
      · rw [withDots_cons2_cons]
        rcases d with _ | _
        · show matchToks (RToken.lit c :: RToken.optDot ::
              interleave (c2 :: cs2) ++ rest)
              ((c :: withDots (c2 :: cs2) ds) ++ tail) = true
          simp only [List.cons_append]
          rw [matchToks_lit_cons]
          exact matchToks_optDot_skip _ _ (ih ds rest tail hne2 hnd2 hrest)
        · show matchToks (RToken.lit c :: RToken.optDot ::
              interleave (c2 :: cs2) ++ rest)
              ((c :: '.' :: withDots (c2 :: cs2) ds) ++ tail) = true
          simp only [List.cons_append]
          rw [matchToks_lit_cons]
          exact matchToks_optDot_dot _ _ (ih ds rest tail hne2 hnd2 hrest)

/-- A pattern matching at the start of the string is found by the search. -/
theorem searchToks_of_match (ts : List RToken) (ds : List Char)
    (h : matchToks ts ds = true) : searchToks ts ds = true := by
  unfold searchToks
  rw [h]
  simp

theorem map_toLower_fix :
    ∀ l : List Char, (∀ c ∈ l, c.toLower = c) →
      l.map Char.toLower = l := by
  intro l
  induction l with
  | nil => intro _; rfl
  | cons c cs ih =>
    intro h
    simp [h c (List.mem_cons_self _ _),
      ih (fun x hx => h x (List.mem_cons_of_mem _ hx))]

theorem takeWhile_dropWhile_append {α : Type} (p : α → Bool) :
    ∀ (xs : List α) (y : α) (ys : List α), (∀ a ∈ xs, p a = true) →
      p y = false →
      (xs ++ y :: ys).takeWhile p = xs ∧
      (xs ++ y :: ys).dropWhile p = y :: ys := by
  intro xs
  induction xs with
  | nil =>
    intro y ys _ h2
    constructor
    · simp [List.takeWhile_cons, h2]
    · simp [List.dropWhile_cons, h2]
  | cons x xs ih =>
    intro y ys h1 h2
    have hx : p x = true := h1 x (List.mem_cons_self _ _)
    have hih := ih y ys (fun a ha => h1 a (List.mem_cons_of_mem _ ha)) h2
    constructor
    · simp [List.takeWhile_cons, hx, hih.1]
    · simp [List.dropWhile_cons, hx, hih.2]

/-- The gmail-detection regex on a well-formed provider address splits it into
its local part and its domain. -/
theorem gmailExec_append (loc : List Char) (dom : String)
    (hdom : dom = "@gmail.com" ∨ dom = "@googlemail.com")
    (hne : loc ≠ []) (hall : loc.all isLocalChar = true) :
    gmailExec (loc ++ dom.data) = some (loc, dom.data) := by
  have hch : ∀ a ∈ loc, (fun c : Char => decide (c ≠ '@')) a = true := by
    intro a ha
    have h1 := List.all_eq_true.mp hall a ha
    have h2 : a ≠ '@' := by
      intro hEq
      subst hEq
      exact absurd h1 (by decide)
    simpa using h2
  rcases hdom with rfl | rfl
  · have hdata : ("@gmail.com".data : List Char) = '@' :: "gmail.com".data :=
      by decide
    have hsplit := takeWhile_dropWhile_append (fun c : Char => decide (c ≠ '@'))
      loc '@' "gmail.com".data hch (by decide)
    unfold gmailExec
    rw [hdata, hsplit.1, hsplit.2]
    rw [if_pos ⟨Or.inl rfl, hne, hall⟩]
  · have hdata : ("@googlemail.com".data : List Char) =
        '@' :: "googlemail.com".data := by decide
    have hsplit := takeWhile_dropWhile_append (fun c : Char => decide (c ≠ '@'))
      loc '@' "googlemail.com".data hch (by decide)
    unfold gmailExec
    rw [hdata, hsplit.1, hsplit.2]
    rw [if_pos ⟨Or.inr rfl, hne, hall⟩]

/--
**C2 amended** — the provider-alias rule canonicalizes at most one dot: for a
recognized provider address whose lowercase local part is a plus-free,
dot-free character run with at most one dot interleaved (`withDots addr ds1`,
`ds1` holding at most one `true`), `compareEmail` under the flag accepts every
address over the same domain whose local part interleaves single dots
anywhere between consecutive characters of the dot-free run
(`withDots addr ds2`, `ds2` arbitrary).  Two-dot locals are not canonicalized
(see the counterexample: the code strips only the first dot).  With the flag
disabled, `compareEmail` is true exactly on case-insensitive equality.
-/
theorem c2_amended (addr : List Char) (ds1 ds2 : List Bool) (dom : String)
    (x y : String)
    (hdom : dom = "@gmail.com" ∨ dom = "@googlemail.com")
    (hne : addr ≠ [])
    (hchars : ∀ ch ∈ addr, isLocalChar ch = true ∧ ch ≠ '.' ∧ ch ≠ '+' ∧
      ch.toLower = ch)
    (hds1 : ds1.count true ≤ 1) :
    compareEmailE ⟨withDots addr ds1 ++ dom.data⟩
      ⟨withDots addr ds2 ++ dom.data⟩ true = Except.ok true ∧
    (compareEmailE x y false = Except.ok true ↔ jsToLower x = jsToLower y) := by
  have hdomfix : dom.data.map Char.toLower = dom.data := by
    rcases hdom with rfl | rfl <;> decide
  have hwfix : ∀ ds : List Bool,
      (withDots addr ds).map Char.toLower = withDots addr ds := by
    intro ds
    refine map_toLower_fix _ ?_
    intro ch hch
    rcases withDots_mem addr ds ch hch with h | rfl
    · exact (hchars ch h).2.2.2
    · decide
  have hlower : ∀ ds : List Bool,
      (jsToLower ⟨withDots addr ds ++ dom.data⟩).data =
        withDots addr ds ++ dom.data := by
    intro ds
    show (withDots addr ds ++ dom.data).map Char.toLower = _
    rw [List.map_append, hwfix, hdomfix]
  have hallloc : ∀ ds : List Bool,
      (withDots addr ds).all isLocalChar = true := by
    intro ds
    refine List.all_eq_true.mpr ?_
    intro ch hch
    rcases withDots_mem addr ds ch hch with h | rfl
    · exact (hchars ch h).1
    · decide
  have hnd : ∀ c ∈ addr, c ≠ '.' := fun c h => (hchars c h).2.1
  have hplus : addr.any (fun ch => ch == '+') = false := by
    refine List.any_eq_false.mpr ?_
    intro ch hch
    simp only [beq_iff_eq]
    exact (hchars ch hch).2.2.1
  constructor
  · unfold compareEmailE
    rw [if_pos rfl]
    have hexec : gmailExec
        (jsToLower ⟨withDots addr ds1 ++ dom.data⟩).data =
        some (withDots addr ds1, dom.data) := by
      rw [hlower ds1]
      exact gmailExec_append _ dom hdom (withDots_ne_nil addr ds1 hne)
        (hallloc ds1)
    rw [hexec]
    dsimp only
    rw [removeFirstDot_withDots addr ds1 hnd hds1]
    rw [if_neg (by simp [hplus])]
    have hsearch : searchToks (interleave addr ++ dom.data.map RToken.lit)
        (jsToLower ⟨withDots addr ds2 ++ dom.data⟩).data = true := by
      rw [hlower ds2]
      refine searchToks_of_match _ _ ?_
      refine matchToks_interleave addr ds2 _ _ hne hnd ?_
      have hlit := matchToks_lits dom.data []
      rwa [List.append_nil] at hlit
    rw [hsearch]
  · constructor
    · intro h
      unfold compareEmailE at h
      rw [if_neg Bool.false_ne_true] at h
      injection h with h
      exact eq_of_beq h
    · intro h
      unfold compareEmailE
      rw [if_neg Bool.false_ne_true]
      rw [h]
      simp

/-- Witness for C2 (amended): `a.b@gmail.com` (one inserted dot) matches
`ab@gmail.com`, and the flag-disabled comparison of `A@x.com` with `a@X.COM`
is exactly case-insensitive equality. -/
theorem c2_amended_witness :
    (("@gmail.com" : String) = "@gmail.com" ∨
      ("@gmail.com" : String) = "@googlemail.com") ∧
    (['a', 'b'] : List Char) ≠ [] ∧
    (∀ ch ∈ (['a', 'b'] : List Char), isLocalChar ch = true ∧ ch ≠ '.' ∧
      ch ≠ '+' ∧ ch.toLower = ch) ∧
    ([true] : List Bool).count true ≤ 1 ∧
    (compareEmailE ⟨withDots ['a', 'b'] [true] ++ "@gmail.com".data⟩
        ⟨withDots ['a', 'b'] [false] ++ "@gmail.com".data⟩ true =
      Except.ok true ∧
    (compareEmailE "A@x.com" "a@X.COM" false = Except.ok true ↔
      jsToLower "A@x.com" = jsToLower "a@X.COM")) :=
  ⟨Or.inl rfl, by decide, by decide, by decide,
    c2_amended ['a', 'b'] [true] [false] "@gmail.com" "A@x.com" "a@X.COM"
      (Or.inl rfl) (by decide) (by decide) (by decide)⟩

end InviteCreate
